import Mathlib

/-!
# Verification of the GrokSearch session-scoped retrieval orchestration engine

Shallow embedding of the core components of the `grok_search` package:
`SourcesCache` and the answer/source splitter (`sources.py`),
`ConversationManager` (`conversation.py`), the retry wait policy and
`rank_sources` (`providers/grok.py`), and `ReflectEngine.run` (`reflect.py`).
Python dicts that preserve insertion order (`dict`, `OrderedDict`) are
modelled as association lists with the oldest entry at the head; machine
floats used only for wall-clock arithmetic are modelled as `ℚ` (retry waits)
or as integral seconds (session clocks); awaited callbacks and network calls
are modelled as injected oracle functions.
-/

namespace GrokSearch

/-! ## Python string helpers

Small executable models of the Python `str` operations the code uses.
Strings are handled as `List Char` so that everything reduces in the kernel.
-/

/-- Python `str.isspace` membership for the ASCII whitespace characters
(the only ones occurring in the embedded texts). -/
def pySpace (c : Char) : Bool :=
  c = ' ' || c = '\t' || c = '\n' || c = '\r' || c = Char.ofNat 11 || c = Char.ofNat 12

/-- `str.lstrip()` on a character list. -/
def pyLStrip (l : List Char) : List Char := l.dropWhile pySpace

/-- `str.strip()` on a character list. -/
def pyStrip (l : List Char) : List Char :=
  ((l.dropWhile pySpace).reverse.dropWhile pySpace).reverse

/-- `str.split()` (no separator: split on whitespace runs, no empty tokens). -/
def pySplitWs : List Char → List (List Char)
  | [] => []
  | c :: rest =>
    if pySpace c then pySplitWs rest
    else
      match pySplitWs rest with
      | [] => [[c]]
      | t :: ts =>
        match rest with
        | [] => [[c]]
        | r :: _ => if pySpace r then [c] :: t :: ts else (c :: t) :: ts

/-- ASCII decimal digit test (`str.isdigit` restricted to ASCII). -/
def pyIsDigit (c : Char) : Bool := '0' ≤ c && c ≤ '9'

/-- `str.isdigit()`: nonempty and all digits. -/
def pyIsDigitStr (l : List Char) : Bool := !l.isEmpty && l.all pyIsDigit

/-- Numeric value of a digit string (used for `float(header)` on a digit header). -/
def digitsToNat (l : List Char) : Nat :=
  l.foldl (fun acc c => acc * 10 + (c.toNat - 48)) 0

/-! ## SourcesCache (`sources.py`)

`SourcesCache` wraps an `OrderedDict[str, list[dict]]`; we model it as an
association list whose head is the least-recently-used entry.  `set` writes
the value, moves the key to the most-recently-used end, and pops from the
least-recently-used end while over capacity; `get` returns the value and
moves the key to the most-recently-used end.  The `asyncio.Lock` serialises
access and has no sequential content.
-/

/-- A normalized source item (`{"url": ..., "title": ..., "description": ...}`). -/
structure Source where
  url : String
  title : Option String := none
  description : Option String := none
deriving DecidableEq, Repr

/-- Drop entries from the least-recently-used end while the map is over
capacity (`while len(self._cache) > self._max_size: popitem(last=False)`). -/
def shrinkTo (cap : Nat) : List (String × List Source) → List (String × List Source)
  | [] => []
  | x :: t => if (x :: t).length ≤ cap then x :: t else shrinkTo cap t

/-- Remove the entry for a key, if present. -/
def eraseKey (k : String) (l : List (String × List Source)) : List (String × List Source) :=
  l.filter (fun p => p.1 ≠ k)

/-- First value stored under a key (`OrderedDict.get`). -/
def findVal (l : List (String × List Source)) (k : String) : Option (List Source) :=
  match l with
  | [] => none
  | p :: rest => if p.1 = k then some p.2 else findVal rest k

structure SourcesCache where
  max_size : Nat
  cache : List (String × List Source)
deriving Repr

/-- `SourcesCache(max_size)` with an empty map. -/
def SourcesCache.empty (max_size : Nat) : SourcesCache := ⟨max_size, []⟩

/-- `SourcesCache.set`: assignment plus `move_to_end` is remove-then-append;
then evict from the least-recently-used end while over capacity. -/
def SourcesCache.set (c : SourcesCache) (session_id : String) (sources : List Source) :
    SourcesCache :=
  { c with cache := shrinkTo c.max_size (eraseKey session_id c.cache ++ [(session_id, sources)]) }

/-- `SourcesCache.get`: return the stored list and mark it most-recently-used. -/
def SourcesCache.get (c : SourcesCache) (session_id : String) :
    Option (List Source) × SourcesCache :=
  match findVal c.cache session_id with
  | none => (none, c)
  | some sources =>
      (some sources, { c with cache := eraseKey session_id c.cache ++ [(session_id, sources)] })

/-- Fold a batch of `set` calls over the cache. -/
def SourcesCache.setAll (c : SourcesCache) (hs : List (String × List Source)) : SourcesCache :=
  hs.foldl (fun acc p => acc.set p.1 p.2) c

lemma shrinkTo_cons (cap : Nat) (x : String × List Source) (t : List (String × List Source)) :
    shrinkTo cap (x :: t) = if t.length + 1 ≤ cap then x :: t else shrinkTo cap t := by
  simp [shrinkTo]

lemma shrinkTo_of_le (cap : Nat) (l : List (String × List Source)) (h : l.length ≤ cap) :
    shrinkTo cap l = l := by
  cases l with
  | nil => rfl
  | cons x t =>
    rw [shrinkTo_cons, if_pos (by simpa using h)]

lemma mem_shrinkTo {cap : Nat} {l : List (String × List Source)} {x : String × List Source}
    (h : x ∈ shrinkTo cap l) : x ∈ l := by
  induction l with
  | nil => simpa [shrinkTo] using h
  | cons y t ih =>
    rw [shrinkTo_cons] at h
    by_cases hl : t.length + 1 ≤ cap
    · rwa [if_pos hl] at h
    · rw [if_neg hl] at h
      exact List.mem_cons_of_mem y (ih h)

/-- Collapsing consecutive evictions: shrinking, appending and shrinking again
is the same as shrinking once at the end. -/
lemma shrinkTo_append_shrinkTo (cap : Nat) (l m : List (String × List Source)) :
    shrinkTo cap (shrinkTo cap l ++ m) = shrinkTo cap (l ++ m) := by
  induction l with
  | nil => rfl
  | cons x t ih =>
    by_cases hl : t.length + 1 ≤ cap
    · rw [shrinkTo_cons, if_pos hl]
    · rw [shrinkTo_cons, if_neg hl, List.cons_append, shrinkTo_cons,
        if_neg (by simp only [List.length_append]; omega)]
      exact ih

lemma shrinkTo_length (cap : Nat) (l : List (String × List Source)) :
    (shrinkTo cap l).length = min l.length cap := by
  induction l with
  | nil => simp [shrinkTo]
  | cons x t ih =>
    by_cases hl : t.length + 1 ≤ cap
    · rw [shrinkTo_cons, if_pos hl]
      simp only [List.length_cons]
      omega
    · rw [shrinkTo_cons, if_neg hl, ih]
      simp only [List.length_cons]
      omega

/-- Shrinking a list ending in a fixed entry keeps that entry at the end
(evictions only remove from the front) as long as capacity is positive. -/
lemma shrinkTo_append_singleton (cap : Nat) (hcap : 1 ≤ cap)
    (e : List (String × List Source)) (x : String × List Source) :
    ∃ e₂, (∀ q ∈ e₂, q ∈ e) ∧ shrinkTo cap (e ++ [x]) = e₂ ++ [x] := by
  induction e with
  | nil =>
    refine ⟨[], by simp, ?_⟩
    simp only [List.nil_append]
    exact shrinkTo_of_le cap [x] (by simpa using hcap)
  | cons y t ih =>
    by_cases hl : ((y :: t) ++ [x]).length ≤ cap
    · exact ⟨y :: t, fun q hq => hq, shrinkTo_of_le cap _ hl⟩
    · obtain ⟨e₂, he₂, heq⟩ := ih
      refine ⟨e₂, fun q hq => List.mem_cons_of_mem y (he₂ q hq), ?_⟩
      rw [List.cons_append, shrinkTo_cons,
        if_neg (by simp only [List.length_append, List.length_cons] at hl ⊢; omega)]
      exact heq

lemma eraseKey_of_fresh {k : String} {l : List (String × List Source)}
    (h : ∀ q ∈ l, q.1 ≠ k) : eraseKey k l = l := by
  induction l with
  | nil => rfl
  | cons p rest ih =>
    simp only [eraseKey, List.filter_cons]
    rw [if_pos (by simpa using h p (List.mem_cons_self p rest))]
    exact congrArg (p :: ·) (ih fun q hq => h q (List.mem_cons_of_mem p hq))

lemma findVal_append_last {l : List (String × List Source)} {k : String} {v : List Source}
    (h : ∀ q ∈ l, q.1 ≠ k) : findVal (l ++ [(k, v)]) k = some v := by
  induction l with
  | nil => simp [findVal]
  | cons p rest ih =>
    simp only [List.cons_append, findVal]
    rw [if_neg (h p (List.mem_cons_self p rest))]
    exact ih fun q hq => h q (List.mem_cons_of_mem p hq)

lemma findVal_eq_none {l : List (String × List Source)} {k : String}
    (h : ∀ q ∈ l, q.1 ≠ k) : findVal l k = none := by
  induction l with
  | nil => rfl
  | cons p rest ih =>
    simp only [findVal]
    rw [if_neg (h p (List.mem_cons_self p rest))]
    exact ih fun q hq => h q (List.mem_cons_of_mem p hq)

/-- Batch insertion of pairwise-fresh keys is a single shrink of the
concatenation: each `set` appends at the most-recently-used end and
evictions happen only at the least-recently-used front. -/
lemma setAll_fresh (hs : List (String × List Source)) :
    ∀ (c : SourcesCache), c.cache.length ≤ c.max_size → (hs.map Prod.fst).Nodup →
      (∀ p ∈ hs, ∀ q ∈ c.cache, p.1 ≠ q.1) →
      (c.setAll hs).cache = shrinkTo c.max_size (c.cache ++ hs) ∧
        (c.setAll hs).max_size = c.max_size := by
  induction hs with
  | nil =>
    intro c hlen _ _
    constructor
    · rw [List.append_nil, shrinkTo_of_le _ _ hlen]
      rfl
    · rfl
  | cons p rest ih =>
    intro c hlen hnd hfresh
    have hnd' : (rest.map Prod.fst).Nodup := by
      simpa [List.nodup_cons] using hnd.of_cons
    have hp1 : ∀ q ∈ c.cache, q.1 ≠ p.1 := fun q hq =>
      (hfresh p (List.mem_cons_self p rest) q hq).symm
    have hset : (c.set p.1 p.2).cache = shrinkTo c.max_size (c.cache ++ [(p.1, p.2)]) := by
      simp only [SourcesCache.set]
      rw [eraseKey_of_fresh hp1]
    have hfresh' : ∀ p₂ ∈ rest, ∀ q ∈ (c.set p.1 p.2).cache, p₂.1 ≠ q.1 := by
      intro p₂ hp₂ q hq
      rw [hset] at hq
      have hq' := mem_shrinkTo hq
      rcases List.mem_append.mp hq' with hqc | hqp
      · exact hfresh p₂ (List.mem_cons_of_mem p hp₂) q hqc
      · have : q = (p.1, p.2) := by simpa using hqp
        subst this
        have : p.1 ∉ rest.map Prod.fst := by
          simpa [List.nodup_cons] using hnd.not_mem
        intro hcontra
        exact this (hcontra ▸ List.mem_map_of_mem Prod.fst hp₂)
    have hstep : (c.setAll (p :: rest)) = ((c.set p.1 p.2).setAll rest) := rfl
    have hlen' : (c.set p.1 p.2).cache.length ≤ (c.set p.1 p.2).max_size := by
      simp only [SourcesCache.set]
      rw [shrinkTo_length]
      exact Nat.min_le_right _ _
    obtain ⟨hc, hm⟩ := ih (c.set p.1 p.2) hlen' hnd' hfresh'
    constructor
    · rw [hstep, hc, hset]
      simp only [SourcesCache.set]
      rw [shrinkTo_append_shrinkTo, List.append_assoc]
      rfl
    · rw [hstep, hm]; rfl

/-- C7, part 1 helper: `set` then `get` on the same handle returns the value,
for positive capacity. -/
lemma set_get_same (c : SourcesCache) (k : String) (v : List Source)
    (hcap : 1 ≤ c.max_size) : ((c.set k v).get k).1 = some v := by
  have hk : ∀ q ∈ eraseKey k c.cache, q.1 ≠ k := by
    intro q hq
    have := List.of_mem_filter hq
    simpa using this
  obtain ⟨e₂, he₂, heq⟩ := shrinkTo_append_singleton c.max_size hcap (eraseKey k c.cache) (k, v)
  simp only [SourcesCache.set, SourcesCache.get, heq]
  rw [findVal_append_last (fun q hq => hk q (he₂ q hq))]

/-- C7: for every handle and source list, `SourcesCache.set` immediately followed
by `get` on the same handle returns the identical ordered list (for positive
capacity); and starting from an empty cache of capacity `C`, after `set` on
`C + 1` distinct handles with no intervening `get`, `get` on the first-inserted
handle returns the not-found signal `none`. -/
theorem C7_sources_cache_set_get_and_lru_eviction :
    (∀ (c : SourcesCache) (k : String) (v : List Source),
      1 ≤ c.max_size → ((c.set k v).get k).1 = some v) ∧
    (∀ (C : Nat) (hs : List (String × List Source)) (k0 : String) (v0 : List Source),
      (hs.map Prod.fst).Nodup → hs.length = C + 1 → hs.head? = some (k0, v0) →
      (((SourcesCache.empty C).setAll hs).get k0).1 = none) := by
  constructor
  · exact set_get_same
  · intro C hs k0 v0 hnd hlen hhead
    cases hs with
    | nil => simp at hhead
    | cons p rest =>
      have hp : p = (k0, v0) := by simpa using hhead
      subst hp
      obtain ⟨hc, _⟩ := setAll_fresh ((k0, v0) :: rest) (SourcesCache.empty C)
        (by simp [SourcesCache.empty]) hnd (by simp [SourcesCache.empty])
      have hrest : rest.length = C := by simpa using hlen
      have hcache : ((SourcesCache.empty C).setAll ((k0, v0) :: rest)).cache = rest := by
        rw [hc]
        simp only [SourcesCache.empty, List.nil_append]
        rw [shrinkTo_cons, if_neg (by omega), shrinkTo_of_le _ _ (by omega)]
      have hk0 : ∀ q ∈ rest, q.1 ≠ k0 := by
        intro q hq hcontra
        have : k0 ∉ rest.map Prod.fst := by
          simpa [List.nodup_cons] using hnd.not_mem
        exact this (hcontra ▸ List.mem_map_of_mem Prod.fst hq)
      simp only [SourcesCache.get, hcache]
      rw [findVal_eq_none hk0]

/-- Witness for C7 at capacity 1 with handles `"a"`, `"b"`. -/
theorem C7_witness :
    ((SourcesCache.empty 1 |>.set "a" [{ url := "https://a.com" }]).get "a").1 =
        some [{ url := "https://a.com" }] ∧
    (((SourcesCache.empty 1).setAll [("a", []), ("b", [])]).get "a").1 = none := by
  constructor
  · exact C7_sources_cache_set_get_and_lru_eviction.1 (SourcesCache.empty 1) "a"
      [{ url := "https://a.com" }] (by decide)
  · exact C7_sources_cache_set_get_and_lru_eviction.2 1 [("a", []), ("b", [])] "a" []
      (by decide) (by decide) rfl

/-! ## `GrokSearchProvider.rank_sources` (`providers/grok.py`)

The provider sends the ranking prompt and parses the returned token stream:
`int(token)` on each whitespace-separated token, keeping first occurrences of
in-range indices, then appending every missing index of `1..total` in
ascending order.  The LLM response is the `result` string parameter here.
-/

/-- Digits-with-underscores tail parser for Python `int(str)` (an underscore
must sit between two digits). -/
def pyIntTail (acc : Nat) : List Char → Option Nat
  | [] => some acc
  | c :: rest =>
    if pyIsDigit c then pyIntTail (acc * 10 + (c.toNat - 48)) rest
    else if c = '_' then
      match rest with
      | [] => none
      | d :: rest₂ =>
        if pyIsDigit d then pyIntTail (acc * 10 + (d.toNat - 48)) rest₂ else none
    else none

/-- Unsigned part of Python `int(str)`: nonempty, starts with a digit. -/
def pyIntDigits : List Char → Option Nat
  | [] => none
  | c :: rest => if pyIsDigit c then pyIntTail (c.toNat - 48) rest else none

/-- Python `int(token)` returning `none` where Python raises `ValueError`. -/
def pyInt? (t : List Char) : Option Int :=
  match pyStrip t with
  | '+' :: rest => (pyIntDigits rest).map Int.ofNat
  | '-' :: rest => (pyIntDigits rest).map (fun n => -(Int.ofNat n))
  | s => (pyIntDigits s).map Int.ofNat

/-- The token loop of `rank_sources`: `order` and `seen` accumulate the
first occurrence of each parsed index `n` with `1 <= n <= total`. -/
def rankCollect (total : Nat) : List (List Char) → List Int → List Int → List Int × List Int
  | [], order, seen => (order, seen)
  | t :: ts, order, seen =>
    match pyInt? t with
    | some n =>
      if 1 ≤ n ∧ n ≤ (total : Int) ∧ n ∉ seen then
        rankCollect total ts (order ++ [n]) (seen ++ [n])
      else rankCollect total ts order seen
    | none => rankCollect total ts order seen

/-- `GrokSearchProvider.rank_sources`, from the raw model response onwards:
parse the ranking, then append the missed indices in ascending order. -/
def rank_sources (result : String) (total : Nat) : List Int :=
  let p := rankCollect total (pySplitWs (pyStrip result.data)) [] []
  p.1 ++ ((List.range' 1 total).map (fun (i : Nat) => (i : Int))).filter (fun i => decide (i ∉ p.2))

lemma rankCollect_cons_none {total : Nat} {t : List Char} {ts : List (List Char)}
    {order seen : List Int} (h : pyInt? t = none) :
    rankCollect total (t :: ts) order seen = rankCollect total ts order seen := by
  rw [rankCollect, h]

lemma rankCollect_cons_some {total : Nat} {t : List Char} {ts : List (List Char)}
    {order seen : List Int} {n : Int} (h : pyInt? t = some n) :
    rankCollect total (t :: ts) order seen =
      if 1 ≤ n ∧ n ≤ (total : Int) ∧ n ∉ seen then
        rankCollect total ts (order ++ [n]) (seen ++ [n])
      else rankCollect total ts order seen := by
  rw [rankCollect, h]

lemma rankCollect_inv (total : Nat) :
    ∀ (ts : List (List Char)) (order seen : List Int), order.Nodup →
      (∀ x, x ∈ seen ↔ x ∈ order) → (∀ x ∈ order, 1 ≤ x ∧ x ≤ (total : Int)) →
      (rankCollect total ts order seen).1.Nodup ∧
        (∀ x, x ∈ (rankCollect total ts order seen).2 ↔ x ∈ (rankCollect total ts order seen).1) ∧
        (∀ x ∈ (rankCollect total ts order seen).1, 1 ≤ x ∧ x ≤ (total : Int)) := by
  intro ts
  induction ts with
  | nil => intro order seen h1 h2 h3; exact ⟨h1, h2, h3⟩
  | cons t ts ih =>
    intro order seen h1 h2 h3
    cases hpy : pyInt? t with
    | none =>
      rw [rankCollect_cons_none hpy]
      exact ih order seen h1 h2 h3
    | some n =>
      rw [rankCollect_cons_some hpy]
      by_cases hcond : 1 ≤ n ∧ n ≤ (total : Int) ∧ n ∉ seen
      · rw [if_pos hcond]
        refine ih (order ++ [n]) (seen ++ [n]) ?_ ?_ ?_
        · rw [List.nodup_append]
          refine ⟨h1, List.nodup_singleton n, ?_⟩
          intro x hx hx'
          have hxn : x = n := by simpa using hx'
          exact hcond.2.2 ((h2 n).mpr (hxn ▸ hx))
        · intro x
          simp only [List.mem_append, List.mem_singleton]
          exact or_congr (h2 x) Iff.rfl
        · intro x hx
          rcases List.mem_append.mp hx with hx' | hx'
          · exact h3 x hx'
          · have hxn : x = n := by simpa using hx'
            exact hxn ▸ ⟨hcond.1, hcond.2.1⟩
      · rw [if_neg hcond]
        exact ih order seen h1 h2 h3

/-- A duplicate-free list inside `S`, followed by the missing elements of `S`
in order, is a permutation of duplicate-free `S`. -/
lemma nodup_append_missing_perm (l S : List Int) (hS : S.Nodup) (hl : l.Nodup)
    (hsub : ∀ x ∈ l, x ∈ S) :
    (l ++ S.filter (fun x => decide (x ∉ l))).Perm S := by
  rw [List.perm_iff_count]
  intro a
  rw [List.count_append]
  by_cases ha : a ∈ l
  · have hfa : a ∉ S.filter (fun x => decide (x ∉ l)) := by
      intro hmem
      have := List.of_mem_filter hmem
      simp only [decide_eq_true_eq] at this
      exact this ha
    rw [List.count_eq_one_of_mem hl ha, List.count_eq_one_of_mem hS (hsub a ha),
      List.count_eq_zero_of_not_mem hfa]
  · rw [List.count_eq_zero_of_not_mem ha, List.count_filter (by simpa using ha)]
    simp

/-- C9: for every response text and every `total`, the index list produced by
`rank_sources` is a permutation of `1..total`: each index appears exactly once,
duplicate or out-of-range tokens are ignored, and omitted indices are appended
in ascending order. -/
theorem C9_rank_sources_permutation (result : String) (total : Nat) :
    (rank_sources result total).Perm ((List.range' 1 total).map (fun (i : Nat) => (i : Int))) := by
  obtain ⟨h1, h2, h3⟩ := rankCollect_inv total (pySplitWs (pyStrip result.data)) [] []
    List.nodup_nil (by simp) (by simp)
  set p := rankCollect total (pySplitWs (pyStrip result.data)) [] [] with hp
  have hfilter :
      ((List.range' 1 total).map (fun (i : Nat) => (i : Int))).filter (fun i => decide (i ∉ p.2)) =
      ((List.range' 1 total).map (fun (i : Nat) => (i : Int))).filter (fun i => decide (i ∉ p.1)) := by
    apply List.filter_congr
    intro x _
    simp only [decide_eq_decide]
    exact not_congr (h2 x)
  show (p.1 ++ _).Perm _
  rw [hfilter]
  apply nodup_append_missing_perm
  · exact List.Nodup.map (fun a b h => by exact_mod_cast h) (List.nodup_range' 1 total)
  · exact h1
  · intro x hx
    obtain ⟨hx1, hx2⟩ := h3 x hx
    refine List.mem_map.mpr ⟨x.toNat, ?_, ?_⟩
    · rw [List.mem_range'_1]
      omega
    · omega


/-! ## Retry wait policy `_WaitWithRetryAfter` (`providers/grok.py`)

The wait callable prefers a parsable `Retry-After` header on an HTTP 429,
adds a 3-second floor offset for mid-stream protocol errors, and otherwise
uses the randomized exponential policy.  `wait_random_exponential` draws a
value uniformly in `[0, min(max_wait, multiplier * 2^attempt)]`; that draw is
the `base` parameter here, constrained by `0 ≤ base ≤ max_wait` in theorems.
`email.utils.parsedate_to_datetime` and `datetime.now` are injected as the
oracle `parsedate` (HTTP-date string to timestamp) and the timestamp `now`,
both in seconds as `ℚ` (floats carry no rounding at this granularity).
-/

/-- The part of `httpx.Response` read by `_parse_retry_after`. -/
structure HttpResponse where
  status_code : Nat
  retry_after_header : Option String

/-- The exception classes distinguished by `_WaitWithRetryAfter.__call__`. -/
inductive RetryExc where
  | httpStatusError (response : HttpResponse)
  | remoteProtocolError
  | otherExc

/-- `retry_state.outcome`: present and failed, carrying the exception. -/
structure RetryOutcome where
  failed : Bool
  exc : RetryExc

structure RetryState where
  outcome : Option RetryOutcome

/-- `_WaitWithRetryAfter._parse_retry_after`: digit seconds, HTTP-date via the
`parsedate` oracle clamped at zero, else unparsable. -/
def parse_retry_after (parsedate : String → Option ℚ) (now : ℚ) (response : HttpResponse) :
    Option ℚ :=
  match response.retry_after_header with
  | none => none
  | some header =>
    if pyIsDigitStr (pyStrip header.data) then some ((digitsToNat (pyStrip header.data) : ℚ))
    else
      match parsedate (String.mk (pyStrip header.data)) with
      | some retry_dt => some (max 0 (retry_dt - now))
      | none => none

/-- `_WaitWithRetryAfter.__call__` on a retry state; `base` is the sampled
`wait_random_exponential` value used by the fall-through branches. -/
def waitWithRetryAfter (parsedate : String → Option ℚ) (now : ℚ) (base : ℚ)
    (retry_state : RetryState) : ℚ :=
  match retry_state.outcome with
  | some outcome =>
    if outcome.failed then
      match outcome.exc with
      | .httpStatusError response =>
        if response.status_code = 429 then
          match parse_retry_after parsedate now response with
          | some retry_after => retry_after
          | none => base
        else base
      | .remoteProtocolError => base + 3
      | .otherExc => base
    else base
  | none => base

/-- C4: a last failure of HTTP 429 carrying `Retry-After: 5` waits exactly 5.0
seconds; a 429 whose `Retry-After` parses neither as digits nor as an
HTTP-date waits the randomized exponential value, which is at most the
configured `max_wait`. -/
theorem C4_retry_after_wait (parsedate : String → Option ℚ) (now : ℚ) (base : ℚ)
    (max_wait : ℚ) (hbase : 0 ≤ base ∧ base ≤ max_wait) :
    waitWithRetryAfter parsedate now base
      ⟨some ⟨true, .httpStatusError ⟨429, some "5"⟩⟩⟩ = 5 ∧
    (∀ header : String, pyIsDigitStr (pyStrip header.data) = false →
      parsedate (String.mk (pyStrip header.data)) = none →
      waitWithRetryAfter parsedate now base
          ⟨some ⟨true, .httpStatusError ⟨429, some header⟩⟩⟩ = base ∧
        waitWithRetryAfter parsedate now base
          ⟨some ⟨true, .httpStatusError ⟨429, some header⟩⟩⟩ ≤ max_wait) := by
  constructor
  · have hdig5 : pyIsDigitStr (pyStrip "5".data) = true := by decide
    have hval5 : ((digitsToNat (pyStrip "5".data) : ℚ)) = 5 := by norm_num [show digitsToNat (pyStrip "5".data) = 5 from by decide]
    have h5 : parse_retry_after parsedate now ⟨429, some "5"⟩ = some 5 := by
      simp only [parse_retry_after, hdig5, if_true, hval5]
    simp only [waitWithRetryAfter, h5, if_true]
  · intro header hdig hdate
    have hnone : parse_retry_after parsedate now ⟨429, some header⟩ = none := by
      simp only [parse_retry_after, hdig, Bool.false_eq_true, if_false, hdate]
    constructor
    · simp only [waitWithRetryAfter, hnone, if_true]
    · simp only [waitWithRetryAfter, hnone, if_true]
      exact hbase.2

/-- Witness for C4: concrete date oracle refusing everything, header
`"soon"`, base 1, max wait 7. -/
theorem C4_witness :
    waitWithRetryAfter (fun _ => none) 0 1
      ⟨some ⟨true, .httpStatusError ⟨429, some "5"⟩⟩⟩ = 5 ∧
    waitWithRetryAfter (fun _ => none) 0 1
        ⟨some ⟨true, .httpStatusError ⟨429, some "soon"⟩⟩⟩ = 1 ∧
      waitWithRetryAfter (fun _ => none) 0 1
        ⟨some ⟨true, .httpStatusError ⟨429, some "soon"⟩⟩⟩ ≤ 7 := by
  obtain ⟨h1, h2⟩ := C4_retry_after_wait (fun _ => none) 0 1 7 (by norm_num)
  exact ⟨h1, h2 "soon" (by decide) rfl⟩

/-! ## ConversationManager (`conversation.py`)

Sessions live in an insertion-ordered `dict[str, ConversationSession]`,
modelled as an association list with the oldest insertion at the head.
`time.time()` is injected as the per-call parameter `now : Int` and
`uuid.uuid4().hex[:12]` as the `fresh_id` parameter.  `min(dict, key=...)`
returns the first key attaining the minimal value in iteration order, and
raises `ValueError` on an empty dict; `get_or_create` therefore returns
`Option`, with `none` exactly on that (capacity-zero) raise path.
-/

structure Message where
  role : String
  content : String
deriving DecidableEq, Repr

structure ConversationSession where
  session_id : String
  messages : List Message := []
  created_at : Int
  last_access : Int
  search_count : Nat := 0
deriving DecidableEq, Repr

/-- `ConversationSession.is_expired`. -/
def ConversationSession.is_expired (s : ConversationSession) (timeout_seconds : Int)
    (now : Int) : Bool :=
  now - s.last_access > (timeout_seconds : Int)

/-- `ConversationSession.is_over_limit`. -/
def ConversationSession.is_over_limit (s : ConversationSession) (max_searches : Nat) : Bool :=
  s.search_count ≥ max_searches

/-- `ConversationSession(session_id=new_id)` with default fields. -/
def newSession (session_id : String) (now : Int) : ConversationSession :=
  { session_id := session_id, messages := [], created_at := now, last_access := now,
    search_count := 0 }

/-- First value stored under a key in an insertion-ordered dict. -/
def sfind (l : List (String × ConversationSession)) (k : String) :
    Option ConversationSession :=
  match l with
  | [] => none
  | p :: rest => if p.1 = k then some p.2 else sfind rest k

/-- `del d[k]` (removes the unique entry for `k`; on lists, every entry). -/
def deleteKey (k : String) (l : List (String × ConversationSession)) :
    List (String × ConversationSession) :=
  l.filter (fun p => p.1 ≠ k)

/-- `d[k] = v`: replace in place if the key exists, else append at the end. -/
def dictSet (k : String) (v : ConversationSession) :
    List (String × ConversationSession) → List (String × ConversationSession)
  | [] => [(k, v)]
  | p :: rest => if p.1 = k then (k, v) :: rest else p :: dictSet k v rest

/-- `min(self._sessions, key=lambda k: self._sessions[k].last_access)`:
the first key attaining the minimal `last_access`, with that minimum. -/
def minByLA : List (String × ConversationSession) → Option (String × Int)
  | [] => none
  | (k, s) :: rest =>
    match minByLA rest with
    | none => some (k, s.last_access)
    | some (k₂, la₂) =>
      if s.last_access ≤ la₂ then some (k, s.last_access) else some (k₂, la₂)

structure ConversationManager where
  sessions : List (String × ConversationSession)
  max_sessions : Nat
  session_timeout : Int
  max_searches : Nat
deriving Repr

/-- `_cleanup_expired`: purge every expired or over-limit session. -/
def ConversationManager.cleanup (m : ConversationManager) (now : Int) : ConversationManager :=
  { m with sessions := m.sessions.filter (fun p =>
      !(p.2.is_expired m.session_timeout now) && !(p.2.is_over_limit m.max_searches)) }

/-- Steps (3)-(4) of `get_or_create`: evict the least-recently-accessed
session if at capacity (`none` on the `min`-of-empty raise), then create and
insert the new session. -/
def mkNewSession (m₂ : ConversationManager) (session_id fresh_id : String) (now : Int) :
    Option (ConversationSession × ConversationManager) :=
  let step : Option ConversationManager :=
    if m₂.sessions.length ≥ m₂.max_sessions then
      match minByLA m₂.sessions with
      | some p => some { m₂ with sessions := deleteKey p.1 m₂.sessions }
      | none => none
    else some m₂
  step.map (fun m₃ =>
    let new_id := if session_id ≠ "" then session_id else fresh_id
    let session := newSession new_id now
    (session, { m₃ with sessions := dictSet new_id session m₃.sessions }))

/-- `ConversationManager.get_or_create`. -/
def ConversationManager.get_or_create (m : ConversationManager) (session_id fresh_id : String)
    (now : Int) : Option (ConversationSession × ConversationManager) :=
  let m₁ := m.cleanup now
  if session_id ≠ "" then
    match sfind m₁.sessions session_id with
    | some session =>
      if !(session.is_expired m.session_timeout now) &&
          !(session.is_over_limit m.max_searches) then
        some (session, m₁)
      else
        mkNewSession { m₁ with sessions := deleteKey session_id m₁.sessions }
          session_id fresh_id now
    | none => mkNewSession m₁ session_id fresh_id now
  else mkNewSession m₁ session_id fresh_id now

/-- `ConversationManager.get`. -/
def ConversationManager.get (m : ConversationManager) (session_id : String) (now : Int) :
    Option ConversationSession × ConversationManager :=
  match sfind m.sessions session_id with
  | none => (none, m)
  | some session =>
    if session.is_expired m.session_timeout now || session.is_over_limit m.max_searches then
      (none, { m with sessions := deleteKey session_id m.sessions })
    else (some session, m)

/-- A sequence of `get_or_create` calls, each with its own id, fresh id and
clock reading; `none` as soon as one call raises. -/
def runGetOrCreate (m : ConversationManager) :
    List (String × String × Int) → Option ConversationManager
  | [] => some m
  | (sid, fresh, now) :: rest =>
    match m.get_or_create sid fresh now with
    | none => none
    | some (_, m₂) => runGetOrCreate m₂ rest

lemma sfind_eq_none {l : List (String × ConversationSession)} {k : String}
    (h : ∀ p ∈ l, p.1 ≠ k) : sfind l k = none := by
  induction l with
  | nil => rfl
  | cons p rest ih =>
    simp only [sfind]
    rw [if_neg (h p (List.mem_cons_self p rest))]
    exact ih fun q hq => h q (List.mem_cons_of_mem p hq)

lemma sfind_unique {l : List (String × ConversationSession)} {k : String}
    {v : ConversationSession} (hnd : (l.map Prod.fst).Nodup)
    (hfind : sfind l k = some v) : ∀ w, (k, w) ∈ l → w = v := by
  induction l with
  | nil => intro w hw; simp at hw
  | cons p rest ih =>
    intro w hw
    by_cases hk : p.1 = k
    · have hv : v = p.2 := by
        simp only [sfind] at hfind
        rw [if_pos hk] at hfind
        exact (Option.some_injective _ hfind).symm
      rcases List.mem_cons.mp hw with hw | hw
      · rw [hv, ← hw]
      · exfalso
        have hk2 : p.1 ∉ rest.map Prod.fst := by
          simpa [List.nodup_cons] using hnd.not_mem
        exact hk2 (hk ▸ List.mem_map_of_mem Prod.fst hw)
    · rcases List.mem_cons.mp hw with hw | hw
      · exact absurd (congrArg Prod.fst hw).symm hk
      · refine ih ?_ ?_ w hw
        · simpa [List.nodup_cons] using hnd.of_cons
        · simpa only [sfind, if_neg hk] using hfind

lemma sfind_dictSet_self (k : String) (v : ConversationSession) :
    ∀ l, sfind (dictSet k v l) k = some v := by
  intro l
  induction l with
  | nil => simp [dictSet, sfind]
  | cons p rest ih =>
    by_cases hk : p.1 = k
    · simp only [dictSet]
      rw [if_pos hk]
      simp [sfind]
    · simp only [dictSet]
      rw [if_neg hk]
      simpa only [sfind, if_neg hk] using ih

lemma mem_cleanup {m : ConversationManager} {now : Int} {p : String × ConversationSession}
    (h : p ∈ (m.cleanup now).sessions) :
    p ∈ m.sessions ∧ p.2.is_expired m.session_timeout now = false ∧
      p.2.is_over_limit m.max_searches = false := by
  have h₂ := List.of_mem_filter h
  rw [Bool.and_eq_true, Bool.not_eq_true', Bool.not_eq_true'] at h₂
  exact ⟨List.mem_of_mem_filter h, h₂.1, h₂.2⟩

/-- `min(dict, key=...)` on a nonempty dict returns the first key attaining
the minimal `last_access`; that key belongs to the dict and its value's
`last_access` is a lower bound for every stored session. -/
lemma minByLA_spec : ∀ (l : List (String × ConversationSession)), l ≠ [] →
    ∃ k la, minByLA l = some (k, la) ∧ (∃ s, (k, s) ∈ l ∧ s.last_access = la) ∧
      ∀ p ∈ l, la ≤ p.2.last_access := by
  intro l
  induction l with
  | nil => intro h; exact absurd rfl h
  | cons p rest ih =>
    intro _
    obtain ⟨k₀, s₀⟩ := p
    by_cases hrest : rest = []
    · subst hrest
      refine ⟨k₀, s₀.last_access, ?_, ⟨s₀, by simp, rfl⟩, ?_⟩
      · simp [minByLA]
      · intro q hq
        have hq₀ : q = (k₀, s₀) := by simpa using hq
        rw [hq₀]
    · obtain ⟨k₂, la₂, hmin₂, ⟨s₂, hs₂, hla₂⟩, hbound₂⟩ := ih hrest
      by_cases hle : s₀.last_access ≤ la₂
      · refine ⟨k₀, s₀.last_access, ?_, ⟨s₀, by simp, rfl⟩, ?_⟩
        · simp only [minByLA, hmin₂]
          rw [if_pos hle]
        · intro q hq
          rcases List.mem_cons.mp hq with hq | hq
          · rw [hq]
          · exact le_trans hle (hbound₂ q hq)
      · refine ⟨k₂, la₂, ?_, ⟨s₂, List.mem_cons_of_mem _ hs₂, hla₂⟩, ?_⟩
        · simp only [minByLA, hmin₂]
          rw [if_neg hle]
        · intro q hq
          rcases List.mem_cons.mp hq with hq | hq
          · rw [hq]; exact le_of_not_le hle
          · exact hbound₂ q hq

lemma deleteKey_length_le (k : String) (l : List (String × ConversationSession)) :
    (deleteKey k l).length ≤ l.length :=
  List.length_filter_le _ l

lemma deleteKey_cons (k : String) (p : String × ConversationSession)
    (rest : List (String × ConversationSession)) :
    deleteKey k (p :: rest) =
      if p.1 = k then deleteKey k rest else p :: deleteKey k rest := by
  simp only [deleteKey, List.filter_cons]
  by_cases hp : p.1 = k
  · rw [if_pos hp, if_neg (by simp [hp])]
  · rw [if_neg hp, if_pos (by simp [hp])]

lemma deleteKey_length_lt {k : String} {l : List (String × ConversationSession)}
    {v : ConversationSession} (h : (k, v) ∈ l) : (deleteKey k l).length < l.length := by
  induction l with
  | nil => simp at h
  | cons p rest ih =>
    rw [deleteKey_cons]
    rcases List.mem_cons.mp h with h | h
    · rw [if_pos (by simp [← h])]
      exact Nat.lt_succ_of_le (deleteKey_length_le k rest)
    · by_cases hp : p.1 = k
      · rw [if_pos hp]
        exact Nat.lt_succ_of_le (deleteKey_length_le k rest)
      · rw [if_neg hp]
        simpa using ih h

lemma dictSet_length_le (k : String) (v : ConversationSession) :
    ∀ l, (dictSet k v l).length ≤ l.length + 1 := by
  intro l
  induction l with
  | nil => simp [dictSet]
  | cons p rest ih =>
    simp only [dictSet]
    by_cases hp : p.1 = k
    · rw [if_pos hp]; simp
    · rw [if_neg hp]
      simpa using Nat.succ_le_succ ih

lemma cleanup_sessions_length_le (m : ConversationManager) (now : Int) :
    (m.cleanup now).sessions.length ≤ m.sessions.length :=
  List.length_filter_le _ m.sessions

lemma cleanup_max_sessions (m : ConversationManager) (now : Int) :
    (m.cleanup now).max_sessions = m.max_sessions := rfl

/-- C3: a session whose `search_count` has reached `max_searches` is never
returned: `get` deletes it and returns `none`, and `get_or_create` (given its
id, with positive capacity so the call cannot raise) creates and stores a
fresh zero-count session under the same id instead. -/
theorem C3_over_limit_session_never_returned
    (m : ConversationManager) (sid : String) (s : ConversationSession) (now : Int)
    (fresh : String) (hnd : (m.sessions.map Prod.fst).Nodup)
    (hfind : sfind m.sessions sid = some s)
    (hover : s.is_over_limit m.max_searches = true) :
    ((m.get sid now).1 = none ∧
      (m.get sid now).2.sessions = deleteKey sid m.sessions) ∧
    (sid ≠ "" → 1 ≤ m.max_sessions →
      ∃ m₂, m.get_or_create sid fresh now = some (newSession sid now, m₂) ∧
        sfind m₂.sessions sid = some (newSession sid now)) := by
  have hcond : (s.is_expired m.session_timeout now || s.is_over_limit m.max_searches) = true := by
    rw [hover, Bool.or_true]
  constructor
  · constructor
    · simp only [ConversationManager.get, hfind, hcond, if_true]
    · simp only [ConversationManager.get, hfind, hcond, if_true]
  · intro hsid hcap
    have hnone : sfind (m.cleanup now).sessions sid = none := by
      apply sfind_eq_none
      intro p hp hpk
      obtain ⟨hmem, _, hov⟩ := mem_cleanup hp
      have hps : p.2 = s := by
        refine sfind_unique hnd hfind p.2 ?_
        rwa [show p = (sid, p.2) from by rw [← hpk]] at hmem
      rw [hps] at hov
      simp [hov] at hover
    simp only [ConversationManager.get_or_create]
    rw [if_pos hsid]
    simp only [hnone]
    by_cases hlen : (m.cleanup now).sessions.length ≥ (m.cleanup now).max_sessions
    · have hne : (m.cleanup now).sessions ≠ [] := by
        intro hcontra
        rw [hcontra] at hlen
        rw [cleanup_max_sessions] at hlen
        simp at hlen
        omega
      obtain ⟨k, la, hmin, _, _⟩ := minByLA_spec _ hne
      simp only [mkNewSession, hmin, if_pos hlen, Option.map_some', if_pos hsid]
      exact ⟨_, rfl, sfind_dictSet_self sid (newSession sid now) _⟩
    · simp only [mkNewSession, if_neg hlen, Option.map_some', if_pos hsid]
      exact ⟨_, rfl, sfind_dictSet_self sid (newSession sid now) _⟩

/-- Witness for C3: a one-session store at its one-search limit. -/
theorem C3_witness :
    (let s : ConversationSession :=
      { session_id := "a", created_at := 0, last_access := 0, search_count := 1 };
    let m : ConversationManager :=
      { sessions := [("a", s)], max_sessions := 2, session_timeout := 600, max_searches := 1 };
    ((m.get "a" 0).1 = none ∧ (m.get "a" 0).2.sessions = deleteKey "a" m.sessions) ∧
    ("a" ≠ "" → 1 ≤ m.max_sessions →
      ∃ m₂, m.get_or_create "a" "f" 0 = some (newSession "a" 0, m₂) ∧
        sfind m₂.sessions "a" = some (newSession "a" 0))) := by
  exact C3_over_limit_session_never_returned _ "a" _ 0 "f" (by decide) rfl (by decide)

lemma mkNewSession_step (m₂ : ConversationManager) (sid fresh : String) (now : Int)
    (hcap : 1 ≤ m₂.max_sessions) (hlen : m₂.sessions.length ≤ m₂.max_sessions) :
    ∃ s m₃, mkNewSession m₂ sid fresh now = some (s, m₃) ∧
      m₃.sessions.length ≤ m₂.max_sessions ∧ m₃.max_sessions = m₂.max_sessions := by
  by_cases hge : m₂.sessions.length ≥ m₂.max_sessions
  · have hne : m₂.sessions ≠ [] := by
      intro h
      rw [h] at hge
      simp at hge
      omega
    obtain ⟨k, la, hmin, ⟨s₀, hs₀, _⟩, _⟩ := minByLA_spec _ hne
    simp only [mkNewSession, hmin, if_pos hge, Option.map_some']
    refine ⟨_, _, rfl, ?_, rfl⟩
    calc (dictSet _ _ (deleteKey k m₂.sessions)).length
        ≤ (deleteKey k m₂.sessions).length + 1 := dictSet_length_le _ _ _
      _ ≤ m₂.sessions.length := deleteKey_length_lt hs₀
      _ ≤ m₂.max_sessions := hlen
  · simp only [mkNewSession, if_neg hge, Option.map_some']
    refine ⟨_, _, rfl, ?_, rfl⟩
    dsimp only
    have h₁ := dictSet_length_le (if sid ≠ "" then sid else fresh)
      (newSession (if sid ≠ "" then sid else fresh) now) m₂.sessions
    omega

lemma get_or_create_step (m : ConversationManager) (sid fresh : String) (now : Int)
    (hcap : 1 ≤ m.max_sessions) (hlen : m.sessions.length ≤ m.max_sessions) :
    ∃ s m₂, m.get_or_create sid fresh now = some (s, m₂) ∧
      m₂.sessions.length ≤ m.max_sessions ∧ m₂.max_sessions = m.max_sessions := by
  have hlen₁ : (m.cleanup now).sessions.length ≤ m.max_sessions :=
    le_trans (cleanup_sessions_length_le m now) hlen
  by_cases hsid : sid ≠ ""
  · cases hsf : sfind (m.cleanup now).sessions sid with
    | some session =>
      by_cases halive : (!(session.is_expired m.session_timeout now) &&
          !(session.is_over_limit m.max_searches)) = true
      · refine ⟨session, m.cleanup now, ?_, hlen₁, rfl⟩
        simp only [ConversationManager.get_or_create, if_pos hsid, hsf, halive, if_true]
      · have hdel : ({ (m.cleanup now) with
            sessions := deleteKey sid (m.cleanup now).sessions } :
              ConversationManager).sessions.length ≤ m.max_sessions :=
          le_trans (deleteKey_length_le sid _) hlen₁
        obtain ⟨s₂, m₃, hmk, hlen₃, hmax₃⟩ := mkNewSession_step
          { (m.cleanup now) with sessions := deleteKey sid (m.cleanup now).sessions }
          sid fresh now hcap hdel
        refine ⟨s₂, m₃, ?_, hlen₃, hmax₃⟩
        simp only [ConversationManager.get_or_create, if_pos hsid, hsf,
          Bool.not_eq_true] at hmk ⊢
        rw [if_neg (by simpa using halive)]
        exact hmk
    | none =>
      obtain ⟨s₂, m₃, hmk, hlen₃, hmax₃⟩ := mkNewSession_step (m.cleanup now)
        sid fresh now hcap hlen₁
      refine ⟨s₂, m₃, ?_, hlen₃, hmax₃⟩
      simp only [ConversationManager.get_or_create, if_pos hsid, hsf]
      exact hmk
  · obtain ⟨s₂, m₃, hmk, hlen₃, hmax₃⟩ := mkNewSession_step (m.cleanup now)
      sid fresh now hcap hlen₁
    refine ⟨s₂, m₃, ?_, hlen₃, hmax₃⟩
    simp only [ConversationManager.get_or_create, if_neg hsid]
    exact hmk

lemma runGetOrCreate_inv : ∀ (calls : List (String × String × Int)) (m : ConversationManager),
    1 ≤ m.max_sessions → m.sessions.length ≤ m.max_sessions →
    ∃ m₂, runGetOrCreate m calls = some m₂ ∧ m₂.sessions.length ≤ m.max_sessions ∧
      m₂.max_sessions = m.max_sessions := by
  intro calls
  induction calls with
  | nil => intro m hcap hlen; exact ⟨m, rfl, hlen, rfl⟩
  | cons c rest ih =>
    intro m hcap hlen
    obtain ⟨sid, fresh, now⟩ := c
    obtain ⟨s₂, m₂, hstep, hlen₂, hmax₂⟩ := get_or_create_step m sid fresh now hcap hlen
    obtain ⟨m₃, hrun, hlen₃, hmax₃⟩ := ih m₂ (hmax₂ ▸ hcap) (hmax₂ ▸ hlen₂)
    refine ⟨m₃, ?_, hmax₂ ▸ hlen₃, hmax₃.trans hmax₂⟩
    simp only [runGetOrCreate, hstep]
    exact hrun

/-- C2: for every sequence of `get_or_create` calls on a manager with positive
capacity, no call raises and after each call (hence any prefix of calls) the
store holds at most `max_sessions` sessions; and whenever a call must evict —
the cleaned store misses the requested id and sits at capacity — the call
removes exactly the entry of the first key with minimal `last_access` among
the live (cleaned) sessions, then inserts the one new session. -/
theorem C2_capacity_bound_and_lru_eviction :
    (∀ (m : ConversationManager) (calls : List (String × String × Int)),
      1 ≤ m.max_sessions → m.sessions.length ≤ m.max_sessions →
      ∃ m₂, runGetOrCreate m calls = some m₂ ∧ m₂.sessions.length ≤ m.max_sessions) ∧
    (∀ (m : ConversationManager) (sid fresh : String) (now : Int),
      1 ≤ m.max_sessions →
      sfind (m.cleanup now).sessions sid = none →
      (m.cleanup now).sessions.length ≥ m.max_sessions →
      ∃ k la, minByLA (m.cleanup now).sessions = some (k, la) ∧
        (∃ s, (k, s) ∈ (m.cleanup now).sessions ∧ s.last_access = la ∧
          s.is_expired m.session_timeout now = false ∧
          s.is_over_limit m.max_searches = false) ∧
        (∀ p ∈ (m.cleanup now).sessions, la ≤ p.2.last_access) ∧
        m.get_or_create sid fresh now =
          some (newSession (if sid ≠ "" then sid else fresh) now,
            { (m.cleanup now) with
                sessions := dictSet (if sid ≠ "" then sid else fresh)
                  (newSession (if sid ≠ "" then sid else fresh) now)
                  (deleteKey k (m.cleanup now).sessions) })) := by
  constructor
  · intro m calls hcap hlen
    obtain ⟨m₂, hrun, hlen₂, _⟩ := runGetOrCreate_inv calls m hcap hlen
    exact ⟨m₂, hrun, hlen₂⟩
  · intro m sid fresh now hcap hsf hge
    have hge' : (m.cleanup now).sessions.length ≥ (m.cleanup now).max_sessions := hge
    have hne : (m.cleanup now).sessions ≠ [] := by
      intro h
      rw [h] at hge
      simp at hge
      omega
    obtain ⟨k, la, hmin, ⟨s₀, hs₀, hla₀⟩, hbound⟩ := minByLA_spec _ hne
    obtain ⟨_, hexp₀, hov₀⟩ := mem_cleanup hs₀
    refine ⟨k, la, hmin, ⟨s₀, hs₀, hla₀, hexp₀, hov₀⟩, hbound, ?_⟩
    have hmk : mkNewSession (m.cleanup now) sid fresh now =
        some (newSession (if sid ≠ "" then sid else fresh) now,
          { (m.cleanup now) with
              sessions := dictSet (if sid ≠ "" then sid else fresh)
                (newSession (if sid ≠ "" then sid else fresh) now)
                (deleteKey k (m.cleanup now).sessions) }) := by
      simp only [mkNewSession, hmin, if_pos hge', Option.map_some']
    by_cases hsid : sid ≠ ""
    · simp only [ConversationManager.get_or_create, if_pos hsid, hsf]
      simpa only [if_pos hsid] using hmk
    · simp only [ConversationManager.get_or_create, if_neg hsid]
      simpa only [if_neg hsid] using hmk

/-- Witness for C2: capacity 1, two inserts under distinct ids; then an
eviction forced by a second id on a full one-slot store. -/
theorem C2_witness :
    (∃ m₂, runGetOrCreate
        { sessions := [], max_sessions := 1, session_timeout := 600, max_searches := 5 }
        [("a", "a", 0), ("b", "b", 0)] = some m₂ ∧ m₂.sessions.length ≤ 1) ∧
    (let s : ConversationSession :=
      { session_id := "a", created_at := 0, last_access := 0, search_count := 0 };
    let m : ConversationManager :=
      { sessions := [("a", s)], max_sessions := 1, session_timeout := 600, max_searches := 5 };
    ∃ k la, minByLA (m.cleanup 0).sessions = some (k, la) ∧
      (∃ s₂, (k, s₂) ∈ (m.cleanup 0).sessions ∧ s₂.last_access = la ∧
        s₂.is_expired m.session_timeout 0 = false ∧
        s₂.is_over_limit m.max_searches = false) ∧
      (∀ p ∈ (m.cleanup 0).sessions, la ≤ p.2.last_access) ∧
      m.get_or_create "b" "f" 0 =
        some (newSession (if "b" ≠ "" then "b" else "f") 0,
          { (m.cleanup 0) with
              sessions := dictSet (if "b" ≠ "" then "b" else "f")
                (newSession (if "b" ≠ "" then "b" else "f") 0)
                (deleteKey k (m.cleanup 0).sessions) })) := by
  constructor
  · exact C2_capacity_bound_and_lru_eviction.1 _ _ (by decide) (by decide)
  · exact C2_capacity_bound_and_lru_eviction.2 _ "b" "f" 0 (by decide) (by decide) (by decide)

/-! ## Answer/source splitter (`sources.py`)

`split_answer_and_sources` runs an ordered chain of strategies over the raw
model text.  Regex scans are embedded as character-level scanners over
`List Char` with explicit fuel so that everything reduces in the kernel;
`m.start()` / string indices are absolute character offsets.  The only piece
left abstract is `_parse_sources_payload` (a JSON / Python-literal parser):
it is injected as the parameter `pp`, which every theorem quantifies over —
the claims under study never reach that branch.
-/

/-- `str.rstrip()`. -/
def pyRStrip (l : List Char) : List Char := (l.reverse.dropWhile pySpace).reverse

/-- First index where `pat` occurs as a contiguous sublist (`str.find`). -/
def findSub (pat : List Char) : List Char → Option Nat
  | [] => if pat.isEmpty then some 0 else none
  | c :: rest =>
    if pat.isPrefixOf (c :: rest) then some 0
    else (findSub pat rest).map (· + 1)

/-- Last index where `pat` occurs as a contiguous sublist (`str.rfind`). -/
def rfindSub (pat : List Char) : List Char → Option Nat
  | [] => if pat.isEmpty then some 0 else none
  | c :: rest =>
    match rfindSub pat rest with
    | some i => some (i + 1)
    | none => if pat.isPrefixOf (c :: rest) then some 0 else none

/-- One line of `str.splitlines`: text up to the first `\n`, `\r\n` or `\r`,
plus the remainder after the terminator when one was found. -/
def splitFirstLine : List Char → List Char × Option (List Char)
  | [] => ([], none)
  | '\n' :: rest => ([], some rest)
  | '\r' :: '\n' :: rest => ([], some rest)
  | '\r' :: rest => ([], some rest)
  | c :: rest =>
    let (ln, r) := splitFirstLine rest
    (c :: ln, r)

def pySplitLinesAux : Nat → List Char → List (List Char)
  | 0, _ => []
  | _ + 1, [] => []
  | fuel + 1, l =>
    match splitFirstLine l with
    | (ln, none) => [ln]
    | (ln, some rest) => ln :: pySplitLinesAux fuel rest

/-- `str.splitlines()`. -/
def pySplitLines (l : List Char) : List (List Char) := pySplitLinesAux (l.length + 1) l

/-- Keep first occurrences, in order (the `seen` set idiom). -/
def dedupeAux : List (List Char) → List (List Char) → List (List Char)
  | [], _ => []
  | x :: rest, seen =>
    if x ∈ seen then dedupeAux rest seen else x :: dedupeAux rest (x :: seen)

/-- Characters that terminate a bare URL in `_URL_PATTERN`:
whitespace and the excluded ASCII/CJK punctuation class. -/
def urlStopChar (c : Char) : Bool :=
  pySpace c || c = '<' || c = '>' || c = '"' || c = Char.ofNat 39 || c = Char.ofNat 96 ||
    c = '，' || c = '。' || c = '、' || c = '；' || c = '：' || c = '！' || c = '？' ||
    c = '》' || c = '）' || c = '】' || c = ')'

/-- `m.group().rstrip('.,;:!?')` applied to a matched URL. -/
def urlRStrip (l : List Char) : List Char :=
  (l.reverse.dropWhile
    (fun c => c = '.' || c = ',' || c = ';' || c = ':' || c = '!' || c = '?')).reverse

/-- Match `_URL_PATTERN` anchored at the head: `https?://` then one or more
non-excluded characters (greedy); returns the match and the remainder. -/
def matchBareUrlAt (l : List Char) : Option (List Char × List Char) :=
  let scheme : Option Nat :=
    if ("https://".data).isPrefixOf l then some 8
    else if ("http://".data).isPrefixOf l then some 7
    else none
  match scheme with
  | none => none
  | some n =>
    let body := (l.drop n).takeWhile (fun c => !urlStopChar c)
    if body.isEmpty then none
    else some (l.take (n + body.length), l.drop (n + body.length))

def bareUrlsAux : Nat → List Char → List (List Char)
  | 0, _ => []
  | _ + 1, [] => []
  | fuel + 1, l@(_ :: rest) =>
    match matchBareUrlAt l with
    | some (u, r) => u :: bareUrlsAux fuel r
    | none => bareUrlsAux fuel rest

/-- `extract_unique_urls` (`utils.py`): every `_URL_PATTERN` match,
right-stripped of trailing punctuation, deduplicated in first-seen order. -/
def extract_unique_urls (l : List Char) : List (List Char) :=
  dedupeAux ((bareUrlsAux l.length l).map urlRStrip) []

/-- Match `_MD_LINK_PATTERN` anchored at the head:
`[title](https?://url)` with nonempty title and url; returns
`((title, url), remainder)`. -/
def matchMdLinkAt (l : List Char) : Option ((List Char × List Char) × List Char) :=
  match l with
  | '[' :: r₁ =>
    let title := r₁.takeWhile (· ≠ ']')
    if title.isEmpty then none
    else
      match r₁.drop title.length with
      | ']' :: '(' :: r₃ =>
        let scheme : Option Nat :=
          if ("https://".data).isPrefixOf r₃ then some 8
          else if ("http://".data).isPrefixOf r₃ then some 7
          else none
        match scheme with
        | none => none
        | some k =>
          let body := (r₃.drop k).takeWhile (· ≠ ')')
          if body.isEmpty then none
          else
            match (r₃.drop k).drop body.length with
            | ')' :: r₄ => some ((title, r₃.take (k + body.length)), r₄)
            | _ => none
      | _ => none
  | _ => none

def mdLinksAux : Nat → List Char → List (List Char × List Char)
  | 0, _ => []
  | _ + 1, [] => []
  | fuel + 1, l@(_ :: rest) =>
    match matchMdLinkAt l with
    | some (tu, r) => tu :: mdLinksAux fuel r
    | none => mdLinksAux fuel rest

/-- `_MD_LINK_PATTERN.findall`: non-overlapping `(title, url)` matches in
left-to-right order. -/
def mdLinks (l : List Char) : List (List Char × List Char) := mdLinksAux l.length l

/-- First pass of `_extract_sources_from_text`: the Markdown links, with
stripped urls/titles, deduplicated by url; also returns the `seen` set. -/
def mdLinkPass : List (List Char × List Char) → List (List Char) →
    List Source × List (List Char)
  | [], seen => ([], seen)
  | (t, u) :: rest, seen =>
    let u₂ := pyStrip u
    if u₂.isEmpty || u₂ ∈ seen then mdLinkPass rest seen
    else
      let t₂ := pyStrip t
      let src : Source :=
        if t₂.isEmpty then { url := String.mk u₂ }
        else { url := String.mk u₂, title := some (String.mk t₂) }
      let (s₂, seen₂) := mdLinkPass rest (u₂ :: seen)
      (src :: s₂, seen₂)

/-- Second pass of `_extract_sources_from_text`: bare URLs not already seen. -/
def bareUrlPass : List (List Char) → List (List Char) → List Source
  | [], _ => []
  | u :: rest, seen =>
    if u ∈ seen then bareUrlPass rest seen
    else { url := String.mk u } :: bareUrlPass rest (u :: seen)

/-- `_extract_sources_from_text`: Markdown links first, then bare URLs,
deduplicated by exact URL in first-seen order. -/
def extractSourcesFromText (l : List Char) : List Source :=
  let (mdSrcs, seen) := mdLinkPass (mdLinks l) []
  mdSrcs ++ bareUrlPass (extract_unique_urls l) seen

/-- Case-insensitive keyword match at the head: returns the remainder. -/
def matchKeywordCI (k l : List Char) : Option (List Char) :=
  if (l.take k.length).map Char.toLower = k then some (l.drop k.length) else none

/-- The `_SOURCES_HEADING_PATTERN` keyword alternation, in regex order
(`s?` optionals expanded greedy-first). -/
def headingKeywords : List (List Char) :=
  ["sources".data, "source".data, "references".data, "reference".data,
   "citations".data, "citation".data, "信源".data, "参考资料".data, "参考".data,
   "引用".data, "来源列表".data, "来源".data]

/-- Optional `(?:\*\*|__)` marker. -/
def dropBoldMarker (l : List Char) : List Char :=
  if (['*', '*'] : List Char).isPrefixOf l then l.drop 2
  else if (['_', '_'] : List Char).isPrefixOf l then l.drop 2
  else l

/-- Tail `\s*[:：]?\s*$` of the heading pattern. -/
def headingTailMatches (l : List Char) : Bool :=
  let l₁ := l.dropWhile pySpace
  let l₂ :=
    match l₁ with
    | c :: r => if c = ':' || c = '：' then r else l₁
    | [] => l₁
  (l₂.dropWhile pySpace).isEmpty

/-- Optional parenthesized annotation `(?:\s*[（(][^)\n]*[)）])?` followed by
the tail.  The bracketed content excludes `)` and newlines; a full-width `）`
may close it early (regex backtracking), so every candidate closer is tried. -/
def headingParenTail (l : List Char) : Bool :=
  headingTailMatches l ||
    (match l.dropWhile pySpace with
     | c :: r =>
       (c = '（' || c = '(') &&
         (List.range (r.length + 1)).any (fun j =>
           match r.drop j with
           | d :: rest =>
             (d = ')' || d = '）') && (r.take j).all (fun e => e ≠ ')' && e ≠ '\n') &&
               headingTailMatches rest
           | [] => false)
     | [] => false)

/-- Whether one line matches `_SOURCES_HEADING_PATTERN` (a `(?im)^...$`
pattern, so matches coincide with whole lines). -/
def headingLineMatches (line : List Char) : Bool :=
  let hashes := line.takeWhile (· = '#')
  if hashes.length > 6 then false
  else
    let l₁ := if hashes.isEmpty then line else (line.drop hashes.length).dropWhile pySpace
    let l₂ := (dropBoldMarker l₁).dropWhile pySpace
    headingKeywords.any (fun k =>
      match matchKeywordCI k l₂ with
      | some rest => headingParenTail ((dropBoldMarker (rest.dropWhile pySpace)))
      | none => false)

def headingStartsAux : Nat → List Char → Nat → List Nat
  | 0, _, _ => []
  | fuel + 1, l, i =>
    let line := l.takeWhile (· ≠ '\n')
    let here := if headingLineMatches line then [i] else []
    match l.drop line.length with
    | [] => here
    | _ :: rest => here ++ headingStartsAux fuel rest (i + line.length + 1)

/-- Start offsets of the lines matching the heading pattern
(`_SOURCES_HEADING_PATTERN.finditer`, multiline). -/
def headingStarts (l : List Char) : List Nat := headingStartsAux (l.length + 1) l 0

def tryHeadingStarts (l : List Char) : List Nat → Option (List Char × List Source)
  | [] => none
  | i :: rest =>
    let sources := extractSourcesFromText (l.drop i)
    if sources.isEmpty then tryHeadingStarts l rest
    else some (pyRStrip (l.take i), sources)

/-- `_split_heading_sources`: last heading line whose suffix yields at least
one source wins; the answer is everything before it, right-stripped. -/
def splitHeadingSources (l : List Char) : Option (List Char × List Source) :=
  let starts := headingStarts l
  if starts.isEmpty then none else tryHeadingStarts l starts.reverse

/-- The leading-bullet scrub `re.sub(r"^\s*(?:[-*]|\d+\.)\s*", "", line)`. -/
def dropBullet (l : List Char) : List Char :=
  let l₁ := l.dropWhile pySpace
  match l₁ with
  | '-' :: r => r.dropWhile pySpace
  | '*' :: r => r.dropWhile pySpace
  | _ =>
    let d := l₁.takeWhile pyIsDigit
    if d.isEmpty then l
    else
      match l₁.drop d.length with
      | '.' :: r => r.dropWhile pySpace
      | _ => l

/-- `_is_link_only_line`. -/
def isLinkOnlyLine (line : List Char) : Bool :=
  let stripped := pyStrip (dropBullet line)
  if stripped.isEmpty then false
  else ("http://".data).isPrefixOf stripped || ("https://".data).isPrefixOf stripped ||
    !(mdLinks stripped).isEmpty

/-- The backward walk of `_split_tail_link_block` over the reversed lines:
how many lines the walk consumes and how many of them are link-like. -/
def tailCount : List (List Char) → Nat × Nat
  | [] => (0, 0)
  | ln :: rest =>
    if (pyStrip ln).isEmpty then
      let (n, c) := tailCount rest
      (n + 1, c)
    else if isLinkOnlyLine (pyStrip ln) then
      let (n, c) := tailCount rest
      (n + 1, c + 1)
    else (0, 0)

/-- `_split_tail_link_block`: at least two trailing link-only lines (blank
lines allowed between them) form the source block. -/
def splitTailLinkBlock (l : List Char) : Option (List Char × List Source) :=
  let lines := pySplitLines l
  if lines.isEmpty then none
  else
    let rl := lines.reverse
    let rl₁ := rl.dropWhile (fun ln => (pyStrip ln).isEmpty)
    if rl₁.isEmpty then none
    else
      let nc := tailCount rl₁
      if nc.2 < 2 then none
      else
        let block := List.intercalate ['\n'] ((rl₁.take nc.1).reverse)
        let sources := extractSourcesFromText block
        if sources.isEmpty then none
        else some (pyRStrip (List.intercalate ['\n'] ((rl₁.drop nc.1).reverse)), sources)

/-- `_split_details_block_sources`: a trailing `<details>…</details>` block
containing at least two sources. -/
def splitDetailsBlockSources (l : List Char) : Option (List Char × List Source) :=
  let lower := l.map Char.toLower
  match rfindSub ("</details>".data) lower with
  | none => none
  | some close =>
    if !(pyStrip (l.drop (close + 10))).isEmpty then none
    else
      match rfindSub ("<details".data) (lower.take close) with
      | none => none
      | some opn =>
        let block := (l.take (close + 10)).drop opn
        let sources := extractSourcesFromText block
        if sources.length < 2 then none
        else some (pyRStrip (l.take opn), sources)

/-- The `_SOURCES_FUNCTION_PATTERN` keyword alternation, in regex order. -/
def funcKeywords : List (List Char) :=
  ["sources".data, "source".data, "citations".data, "citation".data,
   "references".data, "reference".data, "citation_card".data, "source_cards".data,
   "source_card".data]

/-- Try `\s*(keyword)\s*\(` at a candidate start; returns the number of
characters consumed up to and including the opening parenthesis. -/
def matchFuncCallAt (l : List Char) : Option Nat :=
  let ws := l.takeWhile pySpace
  let l₁ := l.drop ws.length
  funcKeywords.findSome? (fun k =>
    match matchKeywordCI k l₁ with
    | some rest =>
      let ws₂ := rest.takeWhile pySpace
      match rest.drop ws₂.length with
      | '(' :: _ => some (ws.length + k.length + ws₂.length + 1)
      | _ => none
    | none => none)

/-- Scan for `(?im)(^|\n)\s*(keyword)\s*\(` matches: `(start, parenIdx)`
pairs in scan order.  `atStart` tracks whether the current offset is a
multiline `^` position. -/
def funcScanAux : Nat → List Char → Nat → Bool → List (Nat × Nat)
  | 0, _, _, _ => []
  | _ + 1, [], _, _ => []
  | fuel + 1, l@(c :: rest), i, atStart =>
    if atStart then
      match matchFuncCallAt l with
      | some consumed =>
        (i, i + consumed - 1) :: funcScanAux fuel (l.drop consumed) (i + consumed) false
      | none => funcScanAux fuel rest (i + 1) (c = '\n')
    else if c = '\n' then
      match matchFuncCallAt rest with
      | some consumed =>
        (i, i + consumed) :: funcScanAux fuel (rest.drop consumed) (i + 1 + consumed) false
      | none => funcScanAux fuel rest (i + 1) true
    else funcScanAux fuel rest (i + 1) false

/-- `_SOURCES_FUNCTION_PATTERN.finditer`. -/
def funcCallMatches (l : List Char) : List (Nat × Nat) := funcScanAux (l.length + 1) l 0 true

/-- The character walk of `_extract_balanced_call_at_end`: nesting depth and
quoted-string state with backslash escapes; at depth zero the remainder of
the text must be whitespace. -/
def balancedAux : List Char → Nat → Nat → Option Char → Bool → Option Nat
  | [], _, _, _, _ => none
  | ch :: rest, idx, depth, inString, escape =>
    match inString with
    | some q =>
      if escape then balancedAux rest (idx + 1) depth (some q) false
      else if ch = '\\' then balancedAux rest (idx + 1) depth (some q) true
      else if ch = q then balancedAux rest (idx + 1) depth none false
      else balancedAux rest (idx + 1) depth (some q) false
    | none =>
      if ch = Char.ofNat 39 || ch = '"' then balancedAux rest (idx + 1) depth (some ch) false
      else if ch = '(' then balancedAux rest (idx + 1) (depth + 1) none false
      else if ch = ')' then
        if depth = 1 then
          if (pyStrip rest).isEmpty then some idx else none
        else balancedAux rest (idx + 1) (depth - 1) none false
      else balancedAux rest (idx + 1) depth none false

/-- `_extract_balanced_call_at_end`: the closing-paren index and the argument
text, when the call closes exactly at the end of the text. -/
def extractBalancedCallAtEnd (text : List Char) (openIdx : Nat) : Option (Nat × List Char) :=
  match text.drop openIdx with
  | '(' :: rest =>
    match balancedAux rest (openIdx + 1) 1 none false with
    | some closeIdx => some (closeIdx, (text.take closeIdx).drop (openIdx + 1))
    | none => none
  | _ => none

def tryFuncMatches (pp : List Char → List Source) (text : List Char) :
    List (Nat × Nat) → Option (List Char × List Source)
  | [] => none
  | (mstart, pidx) :: rest =>
    match extractBalancedCallAtEnd text pidx with
    | none => tryFuncMatches pp text rest
    | some (_, argsText) =>
      let sources := pp argsText
      if sources.isEmpty then tryFuncMatches pp text rest
      else some (pyRStrip (text.take mstart), sources)

/-- `_split_function_call_sources`, with `_parse_sources_payload` injected
as `pp`: last match (with a balanced end-anchored call and a nonempty
payload) wins. -/
def splitFunctionCallSources (pp : List Char → List Source) (text : List Char) :
    Option (List Char × List Source) :=
  let ms := funcCallMatches text
  if ms.isEmpty then none else tryFuncMatches pp text ms.reverse

/-- `_extract_leading_think`: a leading case-insensitive `<think>…</think>`
block (lazy, so up to the first closing tag), stripped; the body is
left-stripped. -/
def extractLeadingThink (text : List Char) : List Char × List Char :=
  let lower := text.map Char.toLower
  if ("<think>".data).isPrefixOf lower then
    match findSub ("</think>".data) (lower.drop 7) with
    | some rel => (pyStrip (text.take (7 + rel + 8)), pyLStrip (text.drop (7 + rel + 8)))
    | none => ([], text)
  else ([], text)

/-- `_rebuild_answer_with_think`. -/
def rebuildAnswerWithThink (tp : List Char) (split : List Char × List Source) :
    List Char × List Source :=
  let answer := pyStrip split.1
  if tp.isEmpty then (answer, split.2)
  else if !answer.isEmpty then (tp ++ ('\n' :: '\n' :: answer), split.2)
  else (tp, split.2)

/-- `split_answer_and_sources` on the character list. -/
def splitAnswerAndSourcesCore (pp : List Char → List Source) (text : List Char) :
    List Char × List Source :=
  let raw := pyStrip text
  if raw.isEmpty then ([], [])
  else
    let tc := extractLeadingThink raw
    if !tc.1.isEmpty && tc.2.isEmpty then (tc.1, [])
    else
      match splitFunctionCallSources pp tc.2 with
      | some split => rebuildAnswerWithThink tc.1 split
      | none =>
        match splitHeadingSources tc.2 with
        | some split => rebuildAnswerWithThink tc.1 split
        | none =>
          match splitDetailsBlockSources tc.2 with
          | some split => rebuildAnswerWithThink tc.1 split
          | none =>
            match splitTailLinkBlock tc.2 with
            | some split => rebuildAnswerWithThink tc.1 split
            | none => rebuildAnswerWithThink tc.1 (tc.2, extractSourcesFromText tc.2)

/-- `split_answer_and_sources` on strings. -/
def split_answer_and_sources (pp : List Char → List Source) (text : String) :
    String × List Source :=
  let r := splitAnswerAndSourcesCore pp text.data
  (String.mk r.1, r.2)

/-- The `(text or "")` guard at the top of `split_answer_and_sources`,
admitting Python `None`. -/
def split_answer_and_sources_opt (pp : List Char → List Source) (text : Option String) :
    String × List Source :=
  split_answer_and_sources pp
    (match text with
     | none => ""
     | some s => s)

/-- C5: on `"结论...\n\n## Sources\n- [A](https://a.com)\n- [B](https://b.com)"`
the splitter (for any payload parser, which this input never reaches) returns
the answer `"结论..."` with the Sources section stripped, and the two sources
in order with their titles. -/
theorem C5_heading_roundtrip (pp : List Char → List Source) :
    split_answer_and_sources pp
        "结论...\n\n## Sources\n- [A](https://a.com)\n- [B](https://b.com)" =
      ("结论...",
        [{ url := "https://a.com", title := some "A" },
         { url := "https://b.com", title := some "B" }]) := rfl

lemma pyStrip_of_all_space {l : List Char} (h : l.all pySpace = true) : pyStrip l = [] := by
  have h₁ : l.dropWhile pySpace = [] := by
    rw [List.dropWhile_eq_nil_iff]
    intro x hx
    exact List.all_eq_true.mp h x hx
  rw [pyStrip, h₁]
  rfl

/-- C10: the splitter is total at the degenerate edge: `None`, the empty
string and whitespace-only strings all yield exactly `("", [])`. -/
theorem C10_blank_inputs_yield_empty :
    (∀ pp : List Char → List Source, split_answer_and_sources_opt pp none = ("", [])) ∧
    (∀ (pp : List Char → List Source) (s : String), s.data.all pySpace = true →
      split_answer_and_sources_opt pp (some s) = ("", [])) := by
  constructor
  · intro pp
    rfl
  · intro pp s hs
    have hstrip : pyStrip s.data = [] := pyStrip_of_all_space hs
    show split_answer_and_sources pp s = ("", [])
    simp only [split_answer_and_sources, splitAnswerAndSourcesCore, hstrip, List.isEmpty_nil,
      if_true]

/-- Witness for C10 at `"  \n\t "`. -/
theorem C10_witness :
    split_answer_and_sources_opt (fun _ => []) none = ("", []) ∧
    split_answer_and_sources_opt (fun _ => []) (some "  \n\t ") = ("", []) :=
  ⟨C10_blank_inputs_yield_empty.1 (fun _ => []),
   C10_blank_inputs_yield_empty.2 (fun _ => []) "  \n\t " (by decide)⟩

lemma pyStrip_eq_rdropWhile (l : List Char) :
    pyStrip l = List.rdropWhile pySpace (l.dropWhile pySpace) := rfl

lemma dropWhile_eq_self_of_leading {x y : List Char}
    (hx : x.dropWhile pySpace = x) (hp : y <+: x) : y.dropWhile pySpace = y := by
  cases y with
  | nil => rfl
  | cons c r =>
    obtain ⟨t, ht⟩ := hp
    have hc : pySpace c = false := by
      rw [← ht, List.cons_append] at hx
      by_contra hcon
      have hc₂ : pySpace c = true := by
        cases hcc : pySpace c with
        | false => exact absurd hcc hcon
        | true => rfl
      rw [List.dropWhile_cons, if_pos hc₂] at hx
      have := congrArg List.length hx
      simp only [List.length_cons] at this
      have hle := ((List.dropWhile_sublist pySpace).length_le : (List.dropWhile pySpace (r ++ t)).length ≤ (r ++ t).length)
      omega
    rw [List.dropWhile_cons, if_neg (by rw [hc]; simp)]

/-- Stripping is idempotent. -/
lemma pyStrip_idem (l : List Char) : pyStrip (pyStrip l) = pyStrip l := by
  rw [pyStrip_eq_rdropWhile l, pyStrip_eq_rdropWhile]
  rw [dropWhile_eq_self_of_leading (List.dropWhile_idempotent pySpace l)
    (List.rdropWhile_prefix pySpace (l.dropWhile pySpace))]
  rw [List.rdropWhile_idempotent]

/-- C8: when no strategy matches — no function-call match, no heading line
with sources, no details block, no trailing link block, not even one Markdown
link — but the (stripped, think-free) text embeds exactly two distinct bare
URLs, the splitter returns the whole text as the answer, untruncated, and
exactly those two URLs as sources in first-seen order. -/
theorem C8_fallback_preserves_answer_and_extracts_urls
    (pp : List Char → List Source) (t u₁ u₂ : List Char)
    (hne : (pyStrip t).isEmpty = false)
    (hthink : extractLeadingThink (pyStrip t) = ([], pyStrip t))
    (hfunc : funcCallMatches (pyStrip t) = [])
    (hhead : splitHeadingSources (pyStrip t) = none)
    (hdet : splitDetailsBlockSources (pyStrip t) = none)
    (htail : splitTailLinkBlock (pyStrip t) = none)
    (hmd : mdLinks (pyStrip t) = [])
    (hurls : extract_unique_urls (pyStrip t) = [u₁, u₂])
    (hdup : u₁ ≠ u₂) :
    split_answer_and_sources pp (String.mk t) =
      (String.mk (pyStrip t), [{ url := String.mk u₁ }, { url := String.mk u₂ }]) := by
  have hextract : extractSourcesFromText (pyStrip t) =
      [{ url := String.mk u₁ }, { url := String.mk u₂ }] := by
    simp only [extractSourcesFromText, hmd, hurls, mdLinkPass, bareUrlPass]
    rw [if_neg (by simp), if_neg (by simp only [List.mem_singleton]; exact fun h => hdup h.symm)]
    simp
  simp only [split_answer_and_sources, splitAnswerAndSourcesCore, hne, Bool.false_eq_true,
    if_false, hthink, List.isEmpty_nil, Bool.not_true, Bool.false_and,
    splitFunctionCallSources, hfunc, if_true, hhead, hdet, htail, hextract,
    rebuildAnswerWithThink, pyStrip_idem]

/-- Witness for C8 on a one-line text with two inline bare URLs. -/
theorem C8_witness :
    split_answer_and_sources (fun _ => [])
        (String.mk ("See https://a.com and https://b.com for details".data)) =
      (String.mk (pyStrip ("See https://a.com and https://b.com for details".data)),
        [{ url := String.mk ("https://a.com".data) },
         { url := String.mk ("https://b.com".data) }]) := by
  exact C8_fallback_preserves_answer_and_extracts_urls (fun _ => [])
    ("See https://a.com and https://b.com for details".data)
    ("https://a.com".data) ("https://b.com".data)
    rfl rfl rfl rfl rfl rfl rfl rfl (by decide)

/-! ## ReflectEngine (`reflect.py`)

`ReflectEngine.run` composes the injected `execute_search` callback, the
reflect/validate LLM calls and the clock into one dict result.  Awaited
calls are injected as oracle event functions: `initial` is the outcome of
the first `execute_search` (a timeout or a returned dict); `reflectEv i h`
is the outcome, for round `i` with truncated history `h`, of the guarded
reflect call (`asyncio.wait_for` timeout, or the `ReflectionRound` that
`_reflect` always returns — its own `try/except Exception` converts parse
and transport failures into a no-gap round, and a falsy `gap`/
`supplementary_query` is modelled as `none`); `suppEv i` is the outcome of
the supplementary search (timeout, any exception — both `except` arms of
the loop — or a returned dict); `validateEv` is the guarded validate call.
`time.time() - start_time` readings are injected as `elapsedA i` (top of
round `i`), `elapsedB i` (before the supplementary search) and `elapsedC`
(before validation), in seconds. -/

def MAX_REFLECTIONS_HARD_LIMIT : Nat := 3
def SINGLE_REFLECTION_TIMEOUT : Nat := 30
def SEARCH_TIMEOUT : Nat := 60
def TOTAL_TIMEOUT : Int := 120
def HISTORY_TRUNCATION_CHARS : Nat := 4000
def MAX_EXTRA_SOURCES : Nat := 10

/-- `_truncate`. -/
def truncateText (text : String) (max_chars : Nat) : String :=
  if text.length ≤ max_chars then text
  else String.mk (text.data.take max_chars) ++ "\n...[已截断，原文共" ++
    toString text.length ++ "字符]"

/-- The success shape of an `_execute_search` dict. -/
structure SearchOk where
  content : String := ""
  session_id : String := ""
  conversation_id : String := ""
  sources_count : Nat := 0
deriving Repr, DecidableEq

/-- A dict returned by `execute_search`: either it contains an `"error"` key
(carried verbatim) or it is a success payload. -/
inductive SearchResponse where
  | err (payload : List (String × String))
  | ok (r : SearchOk)
deriving Repr, DecidableEq

/-- Outcome of one awaited `execute_search` under `asyncio.wait_for`. -/
inductive SearchEvent where
  | timeout
  | res (r : SearchResponse)
deriving Repr, DecidableEq

/-- Outcome of one guarded reflect call. -/
inductive ReflectEvent where
  | timeout
  | result (gap : Option String) (supplementary_query : Option String)
deriving Repr, DecidableEq

/-- Outcome of one guarded supplementary search: timeout, any other
exception, or a returned dict. -/
inductive SuppEvent where
  | timeout
  | exn
  | res (r : SearchResponse)
deriving Repr, DecidableEq

structure ValidationResult where
  consistency : String := "unknown"
  conflicts : List String := []
  confidence : ℚ := 0
deriving Repr, DecidableEq

/-- Outcome of the guarded validate call; both the timeout and the generic
exception arm degrade to the fixed unknown result. -/
inductive ValidateEvent where
  | vtimeout
  | vresult (v : ValidationResult)
deriving Repr, DecidableEq

/-- One `reflection_log` entry. -/
structure ReflectionLogEntry where
  round : Nat
  gap : Option String
  supplementary_query : Option String
deriving Repr, DecidableEq

/-- One `round_sessions` entry. -/
structure RoundSessionEntry where
  round : Nat
  query : String
  session_id : String
deriving Repr, DecidableEq

/-- The mutable locals of the reflection loop. -/
structure LoopState where
  reflection_log : List ReflectionLogEntry
  round_sessions : List RoundSessionEntry
  all_answers : List String
  all_session_ids : List String
  sources_count : Nat
  search_rounds : Nat
  current_answer : String
deriving Repr

/-- The returned dict of a successful run. -/
structure RunDict where
  session_id : String
  conversation_id : String
  content : String
  reflection_log : List ReflectionLogEntry
  round_sessions : List RoundSessionEntry
  sources_count : Nat
  search_rounds : Nat
  validation : Option ValidationResult
deriving Repr

/-- What `run` returns: the initial-search structured errors, or a dict. -/
inductive RunOutcome where
  | errTimeout
  | errDict (payload : List (String × String))
  | ok (d : RunDict)
deriving Repr

/-- Step 2 of `run`: the reflection loop.  `i` is the current round index,
`fuel` the number of remaining iterations of `range(max_reflections)`;
every `break` simply returns the state accumulated so far. -/
def reflectLoop (reflectEv : Nat → String → ReflectEvent) (suppEv : Nat → SuppEvent)
    (elapsedA elapsedB : Nat → Int) : Nat → Nat → LoopState → LoopState
  | _, 0, st => st
  | i, fuel + 1, st =>
    if elapsedA i ≥ TOTAL_TIMEOUT then st
    else
      match reflectEv i (truncateText st.current_answer HISTORY_TRUNCATION_CHARS) with
      | .timeout =>
        { st with reflection_log :=
            st.reflection_log ++ [⟨i + 1, some "反思超时", none⟩] }
      | .result gap suppq =>
        match gap, suppq with
        | some g, some q =>
          let st₁ := { st with reflection_log := st.reflection_log ++ [⟨i + 1, some g, some q⟩] }
          if TOTAL_TIMEOUT - elapsedB i < 5 then st₁
          else
            match suppEv i with
            | .timeout => st₁
            | .exn => st₁
            | .res (.err _) => st₁
            | .res (.ok r) =>
              reflectLoop reflectEv suppEv elapsedA elapsedB (i + 1) fuel
                { st₁ with
                  all_answers := st₁.all_answers ++ [r.content],
                  all_session_ids := st₁.all_session_ids ++ [r.session_id],
                  sources_count := st₁.sources_count + r.sources_count,
                  search_rounds := st₁.search_rounds + 1,
                  round_sessions := st₁.round_sessions ++ [⟨i + 1, q, r.session_id⟩],
                  current_answer :=
                    st₁.current_answer ++ "\n\n补充搜索结果:\n" ++ r.content }
        | _, _ =>
          { st with reflection_log := st.reflection_log ++ [⟨i + 1, none, none⟩] }

/-- Step 4 of `run`, tail of the combined answer (a `None` gap prints as
Python `str(None)` in the f-string, though only non-`None` gaps are
reachable here). -/
def combineAux (log : List ReflectionLogEntry) : Nat → List String → String
  | _, [] => ""
  | idx, ans :: more =>
    let gap_info :=
      match log.get? (idx - 1) with
      | some e =>
        match e.gap with
        | some g => g
        | none => "None"
      | none => ""
    "\n\n---\n**补充 (Round " ++ toString idx ++ ")** — " ++ gap_info ++ ":\n" ++ ans ++
      combineAux log (idx + 1) more

def combineAnswers (answers : List String) (log : List ReflectionLogEntry) : String :=
  match answers with
  | [] => ""
  | a₀ :: rest => a₀ ++ combineAux log 1 rest

/-- `ReflectEngine.run`, over the injected oracles. -/
def ReflectEngine.run (initial : SearchEvent) (reflectEv : Nat → String → ReflectEvent)
    (suppEv : Nat → SuppEvent) (validateEv : ValidateEvent)
    (elapsedA elapsedB : Nat → Int) (elapsedC : Int) (query context : String)
    (max_reflections : Nat) (cross_validate : Bool) : RunOutcome :=
  let maxr := min max_reflections MAX_REFLECTIONS_HARD_LIMIT
  match initial with
  | .timeout => .errTimeout
  | .res (.err payload) => .errDict payload
  | .res (.ok r) =>
    let st₀ : LoopState := {
      reflection_log := [],
      round_sessions := [⟨0, query, r.session_id⟩],
      all_answers := [r.content],
      all_session_ids := [r.session_id],
      sources_count := r.sources_count,
      search_rounds := 1,
      current_answer :=
        if context ≠ "" then "已知背景:\n" ++ context ++ "\n\n搜索回答:\n" ++ r.content
        else r.content }
    let st := reflectLoop reflectEv suppEv elapsedA elapsedB 0 maxr st₀
    let validation : Option ValidationResult :=
      if cross_validate ∧ st.all_answers.length > 1 then
        if TOTAL_TIMEOUT - elapsedC > 5 then
          match validateEv with
          | .vtimeout => some ⟨"unknown", ["验证超时"], 0⟩
          | .vresult v => some v
        else none
      else none
    let content :=
      if st.all_answers.length > 1 then combineAnswers st.all_answers st.reflection_log
      else r.content
    .ok { session_id := r.session_id, conversation_id := r.conversation_id,
          content := content, reflection_log := st.reflection_log,
          round_sessions := st.round_sessions, sources_count := st.sources_count,
          search_rounds := st.search_rounds, validation := validation }

/-- Accumulated loop data only grows: earlier log/audit/answer entries stay
as prefixes and the counters never decrease. -/
def StateLe (a b : LoopState) : Prop :=
  a.reflection_log <+: b.reflection_log ∧ a.round_sessions <+: b.round_sessions ∧
    a.all_answers <+: b.all_answers ∧ a.sources_count ≤ b.sources_count ∧
    a.search_rounds ≤ b.search_rounds

lemma StateLe.rfl (a : LoopState) : StateLe a a :=
  ⟨List.prefix_rfl, List.prefix_rfl, List.prefix_rfl, le_refl _, le_refl _⟩

lemma StateLe.trans {a b c : LoopState} (h₁ : StateLe a b) (h₂ : StateLe b c) :
    StateLe a c :=
  ⟨h₁.1.trans h₂.1, h₁.2.1.trans h₂.2.1, h₁.2.2.1.trans h₂.2.2.1,
    le_trans h₁.2.2.2.1 h₂.2.2.2.1, le_trans h₁.2.2.2.2 h₂.2.2.2.2⟩

lemma StateLe.append_log (st : LoopState) (e : ReflectionLogEntry) :
    StateLe st { st with reflection_log := st.reflection_log ++ [e] } :=
  ⟨⟨[e], Eq.refl _⟩, List.prefix_rfl, List.prefix_rfl, le_refl _, le_refl _⟩

/-- Every exit of the reflection loop preserves everything gathered before
it: the state only grows. -/
lemma reflectLoop_growth (reflectEv : Nat → String → ReflectEvent) (suppEv : Nat → SuppEvent)
    (elapsedA elapsedB : Nat → Int) :
    ∀ (fuel i : Nat) (st : LoopState),
      StateLe st (reflectLoop reflectEv suppEv elapsedA elapsedB i fuel st) := by
  intro fuel
  induction fuel with
  | zero => intro i st; exact StateLe.rfl st
  | succ fuel ih =>
    intro i st
    rw [reflectLoop]
    by_cases hA : elapsedA i ≥ TOTAL_TIMEOUT
    · rw [if_pos hA]; exact StateLe.rfl st
    · rw [if_neg hA]
      cases reflectEv i (truncateText st.current_answer HISTORY_TRUNCATION_CHARS) with
      | timeout => exact StateLe.append_log st _
      | result gap suppq =>
        cases gap with
        | none => exact StateLe.append_log st _
        | some g =>
          cases suppq with
          | none => exact StateLe.append_log st _
          | some q =>
            dsimp only
            by_cases hB : TOTAL_TIMEOUT - elapsedB i < 5
            · rw [if_pos hB]; exact StateLe.append_log st _
            · rw [if_neg hB]
              cases suppEv i with
              | timeout => exact StateLe.append_log st _
              | exn => exact StateLe.append_log st _
              | res r =>
                cases r with
                | err payload => exact StateLe.append_log st _
                | ok r =>
                  refine StateLe.trans (b := { st with reflection_log :=
                    st.reflection_log ++ [⟨i + 1, some g, some q⟩] })
                    (StateLe.append_log st _) (StateLe.trans ?_ (ih (i + 1) _))
                  exact ⟨List.prefix_rfl, ⟨[⟨i + 1, q, r.session_id⟩], Eq.refl _⟩,
                    ⟨[r.content], Eq.refl _⟩, Nat.le_add_right _ _, Nat.le_succ _⟩

/-- The loop adds at most one log entry and one search round per iteration. -/
lemma reflectLoop_bounds (reflectEv : Nat → String → ReflectEvent) (suppEv : Nat → SuppEvent)
    (elapsedA elapsedB : Nat → Int) :
    ∀ (fuel i : Nat) (st : LoopState),
      (reflectLoop reflectEv suppEv elapsedA elapsedB i fuel st).reflection_log.length ≤
          st.reflection_log.length + fuel ∧
        (reflectLoop reflectEv suppEv elapsedA elapsedB i fuel st).search_rounds ≤
          st.search_rounds + fuel := by
  intro fuel
  induction fuel with
  | zero => intro i st; exact ⟨le_refl _, le_refl _⟩
  | succ fuel ih =>
    intro i st
    rw [reflectLoop]
    by_cases hA : elapsedA i ≥ TOTAL_TIMEOUT
    · rw [if_pos hA]; omega
    · rw [if_neg hA]
      cases reflectEv i (truncateText st.current_answer HISTORY_TRUNCATION_CHARS) with
      | timeout => simp only [List.length_append, List.length_singleton]; omega
      | result gap suppq =>
        cases gap with
        | none => simp only [List.length_append, List.length_singleton]; omega
        | some g =>
          cases suppq with
          | none => simp only [List.length_append, List.length_singleton]; omega
          | some q =>
            dsimp only
            by_cases hB : TOTAL_TIMEOUT - elapsedB i < 5
            · rw [if_pos hB]; simp only [List.length_append, List.length_singleton]; omega
            · rw [if_neg hB]
              cases suppEv i with
              | timeout => simp only [List.length_append, List.length_singleton]; omega
              | exn => simp only [List.length_append, List.length_singleton]; omega
              | res r =>
                cases r with
                | err payload => simp only [List.length_append, List.length_singleton]; omega
                | ok r =>
                  dsimp only
                  constructor
                  · refine le_trans (ih (i + 1) _).1 ?_
                    dsimp only
                    simp only [List.length_append, List.length_singleton]
                    omega
                  · refine le_trans (ih (i + 1) _).2 ?_
                    dsimp only
                    omega

/-- C1: for every oracle behavior — arbitrary reflect outcomes (timeouts,
malformed output modelled as no-gap rounds), arbitrary supplementary-search
outcomes (timeouts, exceptions, error dicts), arbitrary validation outcome
and arbitrary clock readings — a run whose initial search returns a
non-error dict always produces an `ok` dict that preserves the data of the
initial search (ids, the round-0 audit entry, its source count, at least the
one search round); and only an initial-search timeout or reported error
yields a structured error. -/
theorem C1_only_initial_search_failure_is_fatal :
    (∀ (reflectEv : Nat → String → ReflectEvent) (suppEv : Nat → SuppEvent)
        (validateEv : ValidateEvent) (elapsedA elapsedB : Nat → Int) (elapsedC : Int)
        (query context : String) (maxr : Nat) (cv : Bool) (r : SearchOk),
      ∃ d, ReflectEngine.run (.res (.ok r)) reflectEv suppEv validateEv elapsedA elapsedB
          elapsedC query context maxr cv = .ok d ∧
        d.session_id = r.session_id ∧ d.conversation_id = r.conversation_id ∧
        [⟨0, query, r.session_id⟩] <+: d.round_sessions ∧
        r.sources_count ≤ d.sources_count ∧ 1 ≤ d.search_rounds) ∧
    (∀ (reflectEv : Nat → String → ReflectEvent) (suppEv : Nat → SuppEvent)
        (validateEv : ValidateEvent) (elapsedA elapsedB : Nat → Int) (elapsedC : Int)
        (query context : String) (maxr : Nat) (cv : Bool),
      ReflectEngine.run .timeout reflectEv suppEv validateEv elapsedA elapsedB elapsedC
        query context maxr cv = .errTimeout) ∧
    (∀ (reflectEv : Nat → String → ReflectEvent) (suppEv : Nat → SuppEvent)
        (validateEv : ValidateEvent) (elapsedA elapsedB : Nat → Int) (elapsedC : Int)
        (query context : String) (maxr : Nat) (cv : Bool)
        (payload : List (String × String)),
      ReflectEngine.run (.res (.err payload)) reflectEv suppEv validateEv elapsedA elapsedB
        elapsedC query context maxr cv = .errDict payload) := by
  refine ⟨?_, fun _ _ _ _ _ _ _ _ _ _ => rfl, fun _ _ _ _ _ _ _ _ _ _ _ => rfl⟩
  intro reflectEv suppEv validateEv elapsedA elapsedB elapsedC query context maxr cv r
  have hg := reflectLoop_growth reflectEv suppEv elapsedA elapsedB
    (min maxr MAX_REFLECTIONS_HARD_LIMIT) 0
    { reflection_log := [],
      round_sessions := [⟨0, query, r.session_id⟩],
      all_answers := [r.content],
      all_session_ids := [r.session_id],
      sources_count := r.sources_count,
      search_rounds := 1,
      current_answer := if context ≠ "" then "已知背景:\n" ++ context ++ "\n\n搜索回答:\n" ++ r.content else r.content }
  exact ⟨_, rfl, rfl, rfl, hg.2.1, hg.2.2.2.1, hg.2.2.2.2⟩

/-- C6: requesting ten reflection rounds is clamped to the hard limit: no
matter how many gaps the injected reflect oracle keeps reporting, a run with
`max_reflections = 10` yields at most 3 `reflection_log` entries and at most
4 search rounds in total. -/
theorem C6_max_reflections_clamped_to_three
    (reflectEv : Nat → String → ReflectEvent) (suppEv : Nat → SuppEvent)
    (validateEv : ValidateEvent) (elapsedA elapsedB : Nat → Int) (elapsedC : Int)
    (query context : String) (cv : Bool) (r : SearchOk) :
    ∃ d, ReflectEngine.run (.res (.ok r)) reflectEv suppEv validateEv elapsedA elapsedB
        elapsedC query context 10 cv = .ok d ∧
      d.reflection_log.length ≤ 3 ∧ d.search_rounds ≤ 4 := by
  have hb := reflectLoop_bounds reflectEv suppEv elapsedA elapsedB
    (min 10 MAX_REFLECTIONS_HARD_LIMIT) 0
    { reflection_log := [],
      round_sessions := [⟨0, query, r.session_id⟩],
      all_answers := [r.content],
      all_session_ids := [r.session_id],
      sources_count := r.sources_count,
      search_rounds := 1,
      current_answer := if context ≠ "" then "已知背景:\n" ++ context ++ "\n\n搜索回答:\n" ++ r.content else r.content }
  refine ⟨_, rfl, ?_, ?_⟩
  · refine le_trans hb.1 ?_
    norm_num [MAX_REFLECTIONS_HARD_LIMIT]
  · refine le_trans hb.2 ?_
    norm_num [MAX_REFLECTIONS_HARD_LIMIT]

end GrokSearch
